import Mathlib

/-!
Shallow embedding of the Mandelbrot explorer engine
(src/App.tsx, src/utils/fractalUtils.ts, src/constants.ts, src/types.ts).

Numbers are modelled as exact rationals; the JavaScript helpers
`Math.round` and the `%` operator (fmod, truncating toward zero) are
modelled explicitly as `jsRound` and `jsMod`.
-/

namespace Mandel

/-- The closed set of color schemes from src/types.ts. -/
inductive ColorScheme where
  | classic
  | fire
  | ocean
  | purple
  | matrix
  | sunset
  | psychedelic
deriving DecidableEq, Repr

/-- Base hue of each scheme, from COLOR_SCHEMES in src/constants.ts
(the display names are irrelevant to the engine and omitted). -/
def baseHue : ColorScheme → ℚ
  | .classic => 200
  | .fire => 0
  | .ocean => 190
  | .purple => 280
  | .matrix => 120
  | .sunset => 330
  | .psychedelic => 60

/-- Truncation toward zero, as JavaScript division underlying `%` does. -/
def ratTrunc (q : ℚ) : ℤ := if 0 ≤ q then ⌊q⌋ else ⌈q⌉

/-- The JavaScript `%` operator on numbers: `a - b * trunc (a / b)`. -/
def jsMod (a b : ℚ) : ℚ := a - b * ratTrunc (a / b)

/-- JavaScript `Math.round`: floor of `x + 1/2`. -/
def jsRound (x : ℚ) : ℤ := ⌊x + 1/2⌋

/-- The `hue2rgb` helper inside `hslToRgb` (src/utils/fractalUtils.ts):
shift `t` into range, then the 6-segment piecewise-linear ramp. -/
def hue2rgb (p q t : ℚ) : ℚ :=
  let t1 := if t < 0 then t + 1 else t
  let t2 := if t1 > 1 then t1 - 1 else t1
  if t2 < 1/6 then p + (q - p) * 6 * t2
  else if t2 < 1/2 then q
  else if t2 < 2/3 then p + (q - p) * (2/3 - t2) * 6
  else p

/-- `hslToRgb` from src/utils/fractalUtils.ts: standard HSL to RGB with
each channel rounded to an integer. -/
def hslToRgb (h s l : ℚ) : ℤ × ℤ × ℤ :=
  if s = 0 then
    (jsRound (l * 255), jsRound (l * 255), jsRound (l * 255))
  else
    let q := if l < 1/2 then l * (1 + s) else l + s - l * s
    let p := 2 * l - q
    (jsRound (hue2rgb p q (h + 1/3) * 255),
     jsRound (hue2rgb p q h * 255),
     jsRound (hue2rgb p q (h - 1/3) * 255))

/-- `getColor` from src/utils/fractalUtils.ts.  The Psychedelic branch
reads `Date.now()`; that clock value is passed here explicitly as
`time` (milliseconds).  The fire branch returns unrounded numbers, so
all channels are returned as rationals; the rounded branches coerce
their integers. -/
def getColor (iteration maxIter : ℕ) (scheme : ColorScheme) (time : ℚ) :
    ℚ × ℚ × ℚ :=
  if iteration = maxIter then (0, 0, 0)
  else
    let t : ℚ := (iteration : ℚ) / (maxIter : ℚ)
    let hue := jsMod (baseHue scheme + t * 360) 360
    match scheme with
    | .matrix => (0, (jsRound (255 * t * 2) : ℚ), 0)
    | .fire =>
        let r := min 255 (t * 510)
        let g := min 255 (max 0 (t * 510 - 255))
        (r, g, 0)
    | .psychedelic =>
        let psychHue := jsMod (t * 5 + time / 10000) 1
        let c := hslToRgb psychHue (8/10) (1/2)
        ((c.1 : ℚ), (c.2.1 : ℚ), (c.2.2 : ℚ))
    | _ =>
        let c := hslToRgb (hue / 360) (7/10) (2/10 + t * (6/10))
        ((c.1 : ℚ), (c.2.1 : ℚ), (c.2.2 : ℚ))

/-- The escape-time while loop body from `draw` in src/App.tsx,
recursing on the remaining fuel `maxIterations - iteration`.
State: current `x`, `y` and `iteration` count. -/
def mandelGo (x0 y0 : ℚ) : ℚ → ℚ → ℕ → ℕ → ℕ
  | _, _, iteration, 0 => iteration
  | x, y, iteration, fuel + 1 =>
    if x * x + y * y ≤ 4 then
      mandelGo x0 y0 (x * x - y * y + x0) (2 * x * y + y0) (iteration + 1) fuel
    else iteration

/-- The escape-time evaluator: `x = 0; y = 0; iteration = 0;
while (x*x + y*y <= 4 && iteration < maxIterations) ...` from `draw`
in src/App.tsx, returning the final `iteration`. -/
def mandelIterate (x0 y0 : ℚ) (maxIterations : ℕ) : ℕ :=
  mandelGo x0 y0 0 0 0 maxIterations

/-- The view state from src/types.ts. -/
structure Viewport where
  centerX : ℚ
  centerY : ℚ
  zoom : ℚ
  maxIterations : ℕ
  colorScheme : ColorScheme
deriving DecidableEq, Repr

/-- Canvas pixel dimensions (canvas.width / canvas.height). -/
structure Canvas where
  width : ℕ
  height : ℕ
deriving DecidableEq, Repr

/-- The initial view state from `useState<ViewState>` in src/App.tsx. -/
def defaultView : Viewport :=
  { centerX := -1/2, centerY := 0, zoom := 1,
    maxIterations := 120, colorScheme := .classic }

/-- `scale = 3.5 / zoom` from `draw` in src/App.tsx. -/
def scaleOf (v : Viewport) : ℚ := 3.5 / v.zoom

/-- `aspectRatio = width / height` from `draw` in src/App.tsx. -/
def aspectOf (cv : Canvas) : ℚ := (cv.width : ℚ) / (cv.height : ℚ)

/-- Pixel x to plane x:
`x0 = centerX + ((px - width / 2) * scale * aspectRatio) / width`. -/
def planeX (v : Viewport) (cv : Canvas) (px : ℚ) : ℚ :=
  v.centerX + ((px - (cv.width : ℚ) / 2) * scaleOf v * aspectOf cv) / (cv.width : ℚ)

/-- Pixel y to plane y: `y0 = centerY + ((py - height / 2) * scale) / height`. -/
def planeY (v : Viewport) (cv : Canvas) (py : ℚ) : ℚ :=
  v.centerY + ((py - (cv.height : ℚ) / 2) * scaleOf v) / (cv.height : ℚ)

/-- The color written for pixel `(px, py)` by the per-pixel loop of
`draw` in src/App.tsx: plane coordinate, escape-time count, `getColor`. -/
def renderPixel (v : Viewport) (cv : Canvas) (px py : ℕ) (time : ℚ) :
    ℚ × ℚ × ℚ :=
  getColor (mandelIterate (planeX v cv (px : ℚ)) (planeY v cv (py : ℚ))
      v.maxIterations)
    v.maxIterations v.colorScheme time

/-- One tick of the continuous-zoom interval in src/App.tsx: recompute
the plane point under the zoom target, move the center 20% toward it,
multiply zoom by 1.05. -/
def diveTick (v : Viewport) (cv : Canvas) (tx ty : ℚ) : Viewport :=
  let targetX := planeX v cv tx
  let targetY := planeY v cv ty
  { v with
    centerX := v.centerX + (targetX - v.centerX) * 0.2,
    centerY := v.centerY + (targetY - v.centerY) * 0.2,
    zoom := v.zoom * 1.05 }

/-- `n` consecutive dive ticks with the zoom target held at the pixel
`(width / 2, height / 2)`, the exact canvas center. -/
def diveTicksAtCenter (cv : Canvas) : ℕ → Viewport → Viewport
  | 0, v => v
  | n + 1, v =>
    diveTicksAtCenter cv n (diveTick v cv ((cv.width : ℚ) / 2) ((cv.height : ℚ) / 2))

/-- `handleCanvasClick` from src/App.tsx (the non-modifier branch):
the clicked pixel becomes the new center and zoom doubles. -/
def handleCanvasClick (v : Viewport) (cv : Canvas) (x y : ℚ) : Viewport :=
  { v with
    centerX := planeX v cv x,
    centerY := planeY v cv y,
    zoom := v.zoom * 2 }

/-- A landmark from INTERESTING_LOCATIONS in src/constants.ts
(name and description strings omitted: the jump only reads x, y, z). -/
structure Location where
  x : ℚ
  y : ℚ
  z : ℚ
deriving DecidableEq, Repr

/-- INTERESTING_LOCATIONS from src/constants.ts. -/
def INTERESTING_LOCATIONS : List Location :=
  [⟨-0.5, 0, 1⟩, ⟨-0.7463, 0.1102, 100⟩, ⟨-0.74364, 0.13182, 2000⟩,
   ⟨-0.1011, 0.9563, 100⟩, ⟨0.285, 0.01, 500⟩, ⟨-0.7269, 0.1889, 5000⟩]

/-- A daily challenge from DAILY_CHALLENGES in src/constants.ts
(the pattern id and day index do not affect the viewport jump). -/
structure Challenge where
  x : ℚ
  y : ℚ
  zoom : ℚ
deriving DecidableEq, Repr

/-- DAILY_CHALLENGES from src/constants.ts. -/
def DAILY_CHALLENGES : List Challenge :=
  [⟨-0.7463, 0.1102, 100⟩, ⟨-1.768, 0.001, 1000⟩, ⟨-0.101, 0.956, 150⟩,
   ⟨-0.7436, 0.1318, 5000⟩, ⟨0.285, 0.01, 800⟩]

/-- The viewport-mutating commands reachable from the UI in src/App.tsx. -/
inductive Command where
  /-- Zoom-in button: `zoom: prev.zoom * 2`. -/
  | zoomIn
  /-- Zoom-out button: `zoom: prev.zoom / 2`. -/
  | zoomOut
  /-- `handleCanvasClick` at pixel `(x, y)`. -/
  | clickZoom (x y : ℚ)
  /-- Drag pan in `handleMouseMove`: pixel delta `(dx, dy)`. -/
  | pan (dx dy : ℚ)
  /-- One continuous-zoom tick with the zoom target at `(tx, ty)`. -/
  | dive (tx ty : ℚ)
  /-- Landmark button `i`: jump to INTERESTING_LOCATIONS[i]. -/
  | jumpLandmark (i : ℕ)
  /-- Daily-challenge button for challenge `i` of DAILY_CHALLENGES. -/
  | jumpDaily (i : ℕ)
  /-- Iteration slider: `maxIterations: parseInt(e.target.value)`. -/
  | setIterations (n : ℕ)
  /-- Palette button: `colorScheme: scheme`. -/
  | setScheme (s : ColorScheme)
  /-- Reset button: restore the default view state. -/
  | reset
deriving DecidableEq, Repr

/-- One step of the navigation state: how each handler in src/App.tsx
updates the view state. -/
def stepCommand (cv : Canvas) (v : Viewport) : Command → Viewport
  | .zoomIn => { v with zoom := v.zoom * 2 }
  | .zoomOut => { v with zoom := v.zoom / 2 }
  | .clickZoom x y => handleCanvasClick v cv x y
  | .pan dx dy =>
    { v with
      centerX := v.centerX - (dx * scaleOf v * aspectOf cv) / (cv.width : ℚ),
      centerY := v.centerY - (dy * scaleOf v) / (cv.height : ℚ) }
  | .dive tx ty => diveTick v cv tx ty
  | .jumpLandmark i =>
    match INTERESTING_LOCATIONS[i]? with
    | some loc => { v with centerX := loc.x, centerY := loc.y, zoom := loc.z }
    | none => v
  | .jumpDaily i =>
    match DAILY_CHALLENGES[i]? with
    | some ch => { v with centerX := ch.x, centerY := ch.y, zoom := ch.zoom }
    | none => v
  | .setIterations n => { v with maxIterations := n }
  | .setScheme s => { v with colorScheme := s }
  | .reset => defaultView

/-- The spec invariants on a viewport: positive zoom, at least one
iteration. -/
def viewInvariant (v : Viewport) : Prop := 0 < v.zoom ∧ 1 ≤ v.maxIterations

instance (v : Viewport) : Decidable (viewInvariant v) := by
  unfold viewInvariant; infer_instance

/-- The iteration slider carries `min="50" max="1000"` in src/App.tsx,
so the browser only delivers values in that range; every other command
is unconstrained. -/
def commandOK : Command → Prop
  | .setIterations n => 50 ≤ n ∧ n ≤ 1000
  | _ => True

instance (c : Command) : Decidable (commandOK c) := by
  cases c <;> (unfold commandOK; infer_instance)

/-- The loop never decreases the iteration counter. -/
theorem le_mandelGo (x0 y0 : ℚ) :
    ∀ (fuel : ℕ) (x y : ℚ) (it : ℕ), it ≤ mandelGo x0 y0 x y it fuel := by
  intro fuel
  induction fuel with
  | zero => intro x y it; simp [mandelGo]
  | succ n ih =>
    intro x y it
    rw [mandelGo]
    split
    · exact le_trans (Nat.le_succ it) (ih _ _ _)
    · exact le_refl it

/-- The loop adds at most `fuel` to the iteration counter. -/
theorem mandelGo_le (x0 y0 : ℚ) :
    ∀ (fuel : ℕ) (x y : ℚ) (it : ℕ), mandelGo x0 y0 x y it fuel ≤ it + fuel := by
  intro fuel
  induction fuel with
  | zero => intro x y it; simp [mandelGo]
  | succ n ih =>
    intro x y it
    rw [mandelGo]
    split
    · exact le_trans (ih _ _ _) (by omega)
    · omega

/-- More fuel can only increase the final iteration counter. -/
theorem mandelGo_fuel_mono (x0 y0 : ℚ) :
    ∀ (f1 f2 : ℕ), f1 ≤ f2 → ∀ (x y : ℚ) (it : ℕ),
      mandelGo x0 y0 x y it f1 ≤ mandelGo x0 y0 x y it f2 := by
  intro f1
  induction f1 with
  | zero =>
    intro f2 _ x y it
    simpa [mandelGo] using le_mandelGo x0 y0 f2 x y it
  | succ n ih =>
    intro f2 h x y it
    cases f2 with
    | zero => omega
    | succ m =>
      rw [mandelGo, mandelGo]
      split_ifs
      · exact ih m (by omega) _ _ _
      · exact le_refl it

/-- Invariant for the real orbit of `c = -1/2`: with `y = 0` and
`x` in `[-1/2, 0]` the loop never escapes and spends all its fuel. -/
theorem mandelGo_neghalf :
    ∀ (fuel : ℕ) (x : ℚ), -1/2 ≤ x → x ≤ 0 → ∀ (it : ℕ),
      mandelGo (-1/2) 0 x 0 it fuel = it + fuel := by
  intro fuel
  induction fuel with
  | zero => intro x _ _ it; simp [mandelGo]
  | succ n ih =>
    intro x h1 h2 it
    rw [mandelGo, if_pos (by nlinarith)]
    have e1 : x * x - 0 * 0 + (-1/2 : ℚ) = x * x - 1/2 := by ring
    have e2 : (2 : ℚ) * x * 0 + 0 = 0 := by ring
    rw [e1, e2, ih (x * x - 1/2) (by nlinarith) (by nlinarith)]
    omega

/-- `jsRound` is nonnegative on nonnegative input. -/
theorem jsRound_nonneg (x : ℚ) (h : 0 ≤ x) : 0 ≤ jsRound x :=
  Int.le_floor.mpr (by push_cast; linarith)

/-- `jsRound` never rounds past an integer upper bound. -/
theorem jsRound_le (x : ℚ) (n : ℤ) (h : x ≤ (n : ℚ)) : jsRound x ≤ n := by
  unfold jsRound
  have : x + 1/2 < ((n + 1 : ℤ) : ℚ) := by push_cast; linarith
  exact Int.lt_add_one_iff.mp (Int.floor_lt.mpr this)

/-- For nonnegative dividend and positive divisor, `jsMod` is nonnegative. -/
theorem jsMod_nonneg (a b : ℚ) (ha : 0 ≤ a) (hb : 0 < b) : 0 ≤ jsMod a b := by
  unfold jsMod ratTrunc
  rw [if_pos (div_nonneg ha hb.le)]
  have h1 : ((⌊a / b⌋ : ℤ) : ℚ) ≤ a / b := Int.floor_le _
  have h2 : b * ((⌊a / b⌋ : ℤ) : ℚ) ≤ b * (a / b) :=
    mul_le_mul_of_nonneg_left h1 hb.le
  have h3 : b * (a / b) = a := by field_simp
  linarith

/-- For nonnegative dividend and positive divisor, `jsMod` stays below
the divisor. -/
theorem jsMod_lt (a b : ℚ) (ha : 0 ≤ a) (hb : 0 < b) : jsMod a b < b := by
  unfold jsMod ratTrunc
  rw [if_pos (div_nonneg ha hb.le)]
  have h1 : a / b < ((⌊a / b⌋ : ℤ) : ℚ) + 1 := Int.lt_floor_add_one _
  have h2 : b * (a / b) < b * (((⌊a / b⌋ : ℤ) : ℚ) + 1) :=
    mul_lt_mul_of_pos_left h1 hb
  have h3 : b * (a / b) = a := by field_simp
  nlinarith

/-- The 6-segment hue helper stays between `p` and `q` for the hue
offsets that `hslToRgb` feeds it (a shifted hue in `[-1/3, 4/3]`). -/
theorem hue2rgb_mem (p q t : ℚ) (hpq : p ≤ q) (h1 : -1/3 ≤ t) (h2 : t ≤ 4/3) :
    p ≤ hue2rgb p q t ∧ hue2rgb p q t ≤ q := by
  simp only [hue2rgb]
  split_ifs <;> constructor <;> nlinarith

/-- For saturation and lightness in `[0, 1]` and hue in `[0, 1)`,
every channel of `hslToRgb` is a byte in `[0, 255]`. -/
theorem hslToRgb_mem (h s l : ℚ) (hs0 : 0 ≤ s) (hs1 : s ≤ 1)
    (hl0 : 0 ≤ l) (hl1 : l ≤ 1) (hh0 : 0 ≤ h) (hh1 : h < 1) :
    (0 ≤ (hslToRgb h s l).1 ∧ (hslToRgb h s l).1 ≤ 255) ∧
    (0 ≤ (hslToRgb h s l).2.1 ∧ (hslToRgb h s l).2.1 ≤ 255) ∧
    (0 ≤ (hslToRgb h s l).2.2 ∧ (hslToRgb h s l).2.2 ≤ 255) := by
  unfold hslToRgb
  by_cases hs : s = 0
  · rw [if_pos hs]
    have hb0 : 0 ≤ l * 255 := by linarith
    have hb1 : l * 255 ≤ ((255 : ℤ) : ℚ) := by push_cast; linarith
    exact ⟨⟨jsRound_nonneg _ hb0, jsRound_le _ _ hb1⟩,
      ⟨jsRound_nonneg _ hb0, jsRound_le _ _ hb1⟩,
      ⟨jsRound_nonneg _ hb0, jsRound_le _ _ hb1⟩⟩
  · rw [if_neg hs]
    set q : ℚ := if l < 1/2 then l * (1 + s) else l + s - l * s with hq
    set p : ℚ := 2 * l - q with hp
    have hq1 : q ≤ 1 := by
      rw [hq]; split_ifs <;> nlinarith
    have hpq : p ≤ q := by
      rw [hp, hq]; split_ifs <;> nlinarith
    have hp0 : 0 ≤ p := by
      rw [hp, hq]; split_ifs <;> nlinarith
    have chan : ∀ t : ℚ, -1/3 ≤ t → t ≤ 4/3 →
        0 ≤ jsRound (hue2rgb p q t * 255) ∧
        jsRound (hue2rgb p q t * 255) ≤ 255 := by
      intro t ht1 ht2
      obtain ⟨hm1, hm2⟩ := hue2rgb_mem p q t hpq ht1 ht2
      constructor
      · exact jsRound_nonneg _ (by nlinarith)
      · exact jsRound_le _ _ (by push_cast; nlinarith)
    exact ⟨chan (h + 1/3) (by linarith) (by linarith),
      chan h (by linarith) (by linarith),
      chan (h - 1/3) (by linarith) (by linarith)⟩

/-- Claim C1, counterexample: at the point (3, 3), which satisfies
x0 * x0 + y0 * y0 > 4, and with maxIterations = 1 >= 1, the escape-time
evaluator returns 1, not 0: the loop body always runs once because z
starts at 0, so the first bound check cannot stop it. -/
theorem claim_C1_counterexample :
    (3 : ℚ) * 3 + 3 * 3 > 4 ∧ 1 ≤ 1 ∧ mandelIterate 3 3 1 ≠ 0 := by
  refine ⟨by norm_num, le_refl 1, ?_⟩
  norm_num [mandelIterate, mandelGo]

/-- Claim C1, amended: for every point with x0 * x0 + y0 * y0 > 4 and
every maxIterations >= 1, the escape-time evaluator returns 1 (the
first loop pass sets z to c, and the next check finds it outside). -/
theorem claim_C1_amended (x0 y0 : ℚ) (h : x0 * x0 + y0 * y0 > 4)
    (N : ℕ) (hN : 1 ≤ N) : mandelIterate x0 y0 N = 1 := by
  obtain ⟨M, rfl⟩ : ∃ M, N = M + 1 := ⟨N - 1, by omega⟩
  rw [mandelIterate, mandelGo,
    if_pos (show (0 : ℚ) * 0 + 0 * 0 ≤ 4 by norm_num)]
  have e1 : (0 : ℚ) * 0 - 0 * 0 + x0 = x0 := by ring
  have e2 : (2 : ℚ) * 0 * 0 + y0 = y0 := by ring
  rw [e1, e2]
  cases M with
  | zero => rw [mandelGo]
  | succ m => rw [mandelGo, if_neg (not_le.mpr h)]

/-- Witness for the amended claim C1 at the concrete point (3, 3). -/
theorem claim_C1_amended_witness :
    (3 : ℚ) * 3 + 3 * 3 > 4 ∧ mandelIterate 3 3 5 = 1 :=
  ⟨by norm_num, claim_C1_amended 3 3 (by norm_num) 5 (by norm_num)⟩

/-- Claim C3: iterate(-1/2, 0, N) = N for every N (the orbit of
c = -1/2 stays in [-1/2, 0] on the real axis and never escapes), and
on the default 800 x 600 viewport the center pixel (400, 300) maps to
the plane point (-1/2, 0) and is rendered black. -/
theorem claim_C3 :
    (∀ N : ℕ, mandelIterate (-1/2) 0 N = N) ∧
    planeX defaultView ⟨800, 600⟩ 400 = -1/2 ∧
    planeY defaultView ⟨800, 600⟩ 300 = 0 ∧
    ∀ time : ℚ, renderPixel defaultView ⟨800, 600⟩ 400 300 time = (0, 0, 0) := by
  have hiter : ∀ N : ℕ, mandelIterate (-1/2) 0 N = N := by
    intro N
    simpa [mandelIterate] using mandelGo_neghalf N 0 (by norm_num) (le_refl 0) 0
  have hx : planeX defaultView ⟨800, 600⟩ 400 = -1/2 := by
    norm_num [planeX, scaleOf, aspectOf, defaultView]
  have hy : planeY defaultView ⟨800, 600⟩ 300 = 0 := by
    norm_num [planeY, scaleOf, defaultView]
  refine ⟨hiter, hx, hy, fun time => ?_⟩
  rw [renderPixel]
  rw [show ((400 : ℕ) : ℚ) = 400 by norm_num,
    show ((300 : ℕ) : ℚ) = 300 by norm_num, hx, hy]
  rw [show defaultView.maxIterations = 120 from rfl, hiter 120]
  simp [getColor]

/-- Claim C7: for a fixed point, the escape-time count is non-decreasing
in the iteration cap, and it never exceeds the cap. -/
theorem claim_C7 :
    (∀ (x0 y0 : ℚ) (N M : ℕ), N ≤ M →
      mandelIterate x0 y0 N ≤ mandelIterate x0 y0 M) ∧
    (∀ (x0 y0 : ℚ) (N : ℕ), mandelIterate x0 y0 N ≤ N) := by
  constructor
  · intro x0 y0 N M h
    exact mandelGo_fuel_mono x0 y0 N M h 0 0 0
  · intro x0 y0 N
    simpa using mandelGo_le x0 y0 N 0 0 0

/-- Witness for claim C7 at the point (-1/2, 0) with caps 3 <= 7. -/
theorem claim_C7_witness :
    3 ≤ 7 ∧ mandelIterate (-1/2) 0 3 ≤ mandelIterate (-1/2) 0 7 :=
  ⟨by norm_num, claim_C7.1 (-1/2) 0 3 7 (by norm_num)⟩

/-- Claim C9: whenever the iteration count equals the cap, getColor
returns black for every scheme and every clock value. -/
theorem claim_C9 (mi : ℕ) (s : ColorScheme) (time : ℚ) (h : 1 ≤ mi) :
    getColor mi mi s time = (0, 0, 0) := by
  simp [getColor]

/-- Witness for claim C9 with cap 120 and the fire scheme. -/
theorem claim_C9_witness : 1 ≤ 120 ∧ getColor 120 120 .fire 0 = (0, 0, 0) :=
  ⟨by norm_num, claim_C9 120 .fire 0 (by norm_num)⟩

/-- Claim C10: for maxIterations >= 1 the loop body runs at least once
(z starts at 0, so the first bound check passes), hence the result lies
in [1, maxIterations] and 0 is never returned. -/
theorem claim_C10 (x0 y0 : ℚ) (N : ℕ) (h : 1 ≤ N) :
    1 ≤ mandelIterate x0 y0 N ∧ mandelIterate x0 y0 N ≤ N := by
  constructor
  · obtain ⟨M, rfl⟩ : ∃ M, N = M + 1 := ⟨N - 1, by omega⟩
    rw [mandelIterate, mandelGo,
      if_pos (show (0 : ℚ) * 0 + 0 * 0 ≤ 4 by norm_num)]
    exact le_mandelGo x0 y0 M _ _ 1
  · simpa using mandelGo_le x0 y0 N 0 0 0

/-- Witness for claim C10 at the point (5, 5) with cap 2. -/
theorem claim_C10_witness :
    1 ≤ 2 ∧ 1 ≤ mandelIterate 5 5 2 ∧ mandelIterate 5 5 2 ≤ 2 :=
  ⟨by norm_num, claim_C10 5 5 2 (by norm_num)⟩

/-- Claim C4: each Diving tick moves the center 20% of the remaining
distance toward the plane point under the zoom target and multiplies
zoom by 1.05; with the target fixed at the canvas-center pixel, 20
ticks leave the center unchanged and scale zoom by 1.05 ^ 20. -/
theorem claim_C4 :
    (∀ (v : Viewport) (cv : Canvas) (tx ty : ℚ),
      (diveTick v cv tx ty).centerX
          = v.centerX + (planeX v cv tx - v.centerX) * 0.2 ∧
      (diveTick v cv tx ty).centerY
          = v.centerY + (planeY v cv ty - v.centerY) * 0.2 ∧
      (diveTick v cv tx ty).zoom = v.zoom * 1.05) ∧
    (∀ (cv : Canvas) (v : Viewport),
      (diveTicksAtCenter cv 20 v).centerX = v.centerX ∧
      (diveTicksAtCenter cv 20 v).centerY = v.centerY ∧
      (diveTicksAtCenter cv 20 v).zoom = v.zoom * 1.05 ^ 20) := by
  constructor
  · intro v cv tx ty
    exact ⟨rfl, rfl, rfl⟩
  · have key : ∀ (cv : Canvas) (n : ℕ) (v : Viewport),
        (diveTicksAtCenter cv n v).centerX = v.centerX ∧
        (diveTicksAtCenter cv n v).centerY = v.centerY ∧
        (diveTicksAtCenter cv n v).zoom = v.zoom * 1.05 ^ n := by
      intro cv n
      induction n with
      | zero => intro v; exact ⟨rfl, rfl, by simp [diveTicksAtCenter]⟩
      | succ m ih =>
        intro v
        rw [diveTicksAtCenter]
        obtain ⟨h1, h2, h3⟩ :=
          ih (diveTick v cv ((cv.width : ℚ) / 2) ((cv.height : ℚ) / 2))
        have hx : (diveTick v cv ((cv.width : ℚ) / 2)
            ((cv.height : ℚ) / 2)).centerX = v.centerX := by
          simp only [diveTick, planeX, scaleOf, aspectOf]
          ring
        have hy : (diveTick v cv ((cv.width : ℚ) / 2)
            ((cv.height : ℚ) / 2)).centerY = v.centerY := by
          simp only [diveTick, planeY, scaleOf]
          ring
        have hz : (diveTick v cv ((cv.width : ℚ) / 2)
            ((cv.height : ℚ) / 2)).zoom = v.zoom * 1.05 := rfl
        refine ⟨by rw [h1, hx], by rw [h2, hy], ?_⟩
        rw [h3, hz]
        ring
    exact fun cv v => key cv 20 v

/-- Claim C5: a click-zoom recenters the view on the plane point of the
clicked pixel and exactly doubles zoom; clicking the canvas-center
pixel leaves the center unchanged. -/
theorem claim_C5 :
    (∀ (v : Viewport) (cv : Canvas) (x y : ℚ),
      (handleCanvasClick v cv x y).centerX = planeX v cv x ∧
      (handleCanvasClick v cv x y).centerY = planeY v cv y ∧
      (handleCanvasClick v cv x y).zoom = v.zoom * 2) ∧
    (∀ (v : Viewport) (cv : Canvas),
      (handleCanvasClick v cv ((cv.width : ℚ) / 2)
          ((cv.height : ℚ) / 2)).centerX = v.centerX ∧
      (handleCanvasClick v cv ((cv.width : ℚ) / 2)
          ((cv.height : ℚ) / 2)).centerY = v.centerY ∧
      (handleCanvasClick v cv ((cv.width : ℚ) / 2)
          ((cv.height : ℚ) / 2)).zoom = v.zoom * 2) := by
  refine ⟨fun v cv x y => ⟨rfl, rfl, rfl⟩, fun v cv => ⟨?_, ?_, rfl⟩⟩
  · simp only [handleCanvasClick, planeX, scaleOf, aspectOf]
    ring
  · simp only [handleCanvasClick, planeY, scaleOf]
    ring

/-- Every single navigation step keeps zoom positive and the iteration
cap at least 1, given that slider values respect the range bounds of
the input element. -/
theorem stepCommand_preserves (cv : Canvas) (v : Viewport) (c : Command)
    (hv : viewInvariant v) (hc : commandOK c) :
    viewInvariant (stepCommand cv v c) := by
  obtain ⟨hz, hi⟩ := hv
  cases c with
  | zoomIn => exact ⟨by simp only [stepCommand]; linarith, hi⟩
  | zoomOut =>
    exact ⟨by simp only [stepCommand]; exact div_pos hz (by norm_num), hi⟩
  | clickZoom x y =>
    exact ⟨by simp only [stepCommand, handleCanvasClick]; linarith, hi⟩
  | pan dx dy => exact ⟨hz, hi⟩
  | dive tx ty =>
    exact ⟨by simp only [stepCommand, diveTick]; nlinarith, hi⟩
  | jumpLandmark i =>
    have hall : ∀ loc ∈ INTERESTING_LOCATIONS, 0 < loc.z := by
      intro loc hloc
      fin_cases hloc <;> norm_num
    rcases h : INTERESTING_LOCATIONS[i]? with _ | loc
    · simpa [stepCommand, h] using And.intro hz hi
    · obtain ⟨hlt, rfl⟩ := List.getElem?_eq_some.mp h
      have := hall _ (List.getElem_mem hlt)
      simpa [stepCommand, h] using And.intro this hi
  | jumpDaily i =>
    have hall : ∀ ch ∈ DAILY_CHALLENGES, 0 < ch.zoom := by
      intro ch hch
      fin_cases hch <;> norm_num
    rcases h : DAILY_CHALLENGES[i]? with _ | ch
    · simpa [stepCommand, h] using And.intro hz hi
    · obtain ⟨hlt, rfl⟩ := List.getElem?_eq_some.mp h
      have := hall _ (List.getElem_mem hlt)
      simpa [stepCommand, h] using And.intro this hi
  | setIterations n =>
    obtain ⟨hn1, _⟩ := hc
    refine ⟨hz, ?_⟩
    simp only [stepCommand]
    omega
  | setScheme s => exact ⟨hz, hi⟩
  | reset =>
    exact ⟨by norm_num [stepCommand, defaultView],
      by norm_num [stepCommand, defaultView]⟩

/-- Claim C6: starting from the default viewport, any sequence of
navigation commands (with slider values in the range the input element
allows) keeps zoom > 0 and maxIterations >= 1. -/
theorem claim_C6 (cmds : List Command) (cv : Canvas)
    (h : ∀ c ∈ cmds, commandOK c) :
    viewInvariant (List.foldl (stepCommand cv) defaultView cmds) := by
  have gen : ∀ (l : List Command) (v : Viewport), viewInvariant v →
      (∀ c ∈ l, commandOK c) →
      viewInvariant (List.foldl (stepCommand cv) v l) := by
    intro l
    induction l with
    | nil => intro v hv _; simpa using hv
    | cons c cs ih =>
      intro v hv hall
      rw [List.foldl_cons]
      exact ih _ (stepCommand_preserves cv v c hv (hall c (by simp)))
        (fun d hd => by exact hall d (by simp [hd]))
  exact gen cmds defaultView
    ⟨by norm_num [defaultView], by norm_num [defaultView]⟩ h

/-- Witness for claim C6: a concrete command sequence exercising every
command kind keeps the invariants. -/
theorem claim_C6_witness :
    viewInvariant (List.foldl (stepCommand ⟨800, 600⟩) defaultView
      [Command.zoomIn, Command.zoomOut, Command.clickZoom 100 50,
       Command.pan 3 (-4), Command.dive 10 20, Command.jumpLandmark 1,
       Command.jumpDaily 0, Command.setIterations 200,
       Command.setScheme .matrix, Command.reset]) := by
  apply claim_C6
  intro c hc
  fin_cases hc <;> norm_num [commandOK]

/-- Claim C8: getColor ignores the clock for every non-Psychedelic
scheme, and the Psychedelic scheme really does depend on it. -/
theorem claim_C8 :
    (∀ s : ColorScheme, s ≠ .psychedelic →
      ∀ (it mi : ℕ) (t1 t2 : ℚ), getColor it mi s t1 = getColor it mi s t2) ∧
    (∃ (it mi : ℕ) (t1 t2 : ℚ),
      getColor it mi .psychedelic t1 ≠ getColor it mi .psychedelic t2) := by
  constructor
  · intro s hs it mi t1 t2
    cases s
    case psychedelic => exact absurd rfl hs
    all_goals rfl
  · refine ⟨0, 1, 0, 5000, ?_⟩
    norm_num [getColor, hslToRgb, hue2rgb, jsMod, ratTrunc, jsRound,
      Prod.ext_iff]

/-- Witness for claim C8 with the classic scheme and two clock values. -/
theorem claim_C8_witness :
    ColorScheme.classic ≠ ColorScheme.psychedelic ∧
    getColor 3 7 .classic 0 = getColor 3 7 .classic 123456 :=
  ⟨by decide, claim_C8.1 .classic (by decide) 3 7 0 123456⟩

/-- Claim C2, counterexample: with iteration 2 of maxIterations 3 the
Matrix scheme returns a green channel of round(255 * (2/3) * 2) = 340,
which exceeds 255: the source never clamps this channel.  Moreover at
iteration 1 of maxIterations 7 the Fire scheme returns the red channel
510/7, which is not an integer: the fire ramp is never rounded. -/
theorem claim_C2_counterexample :
    ((2 : ℕ) ≤ 3 ∧ (getColor 2 3 .matrix 0).2.1 = 340 ∧
      ¬ (getColor 2 3 .matrix 0).2.1 ≤ 255) ∧
    ((getColor 1 7 .fire 0).1 = 510/7 ∧
      ¬ ∃ n : ℤ, (getColor 1 7 .fire 0).1 = (n : ℚ)) := by
  have hfire : (getColor 1 7 .fire 0).1 = 510/7 := by
    norm_num [getColor]
  refine ⟨⟨by norm_num, ?_, ?_⟩, hfire, ?_⟩
  · norm_num [getColor, jsRound]
  · norm_num [getColor, jsRound]
  · rintro ⟨n, hn⟩
    rw [hfire] at hn
    have : (510 : ℚ) = 7 * (n : ℚ) := by linarith
    have h7 : (510 : ℤ) = 7 * n := by exact_mod_cast this
    omega

/-- Claim C2, amended: for iteration <= maxIterations, maxIterations
>= 1 and a nonnegative clock, the red and blue channels of getColor
always lie in [0, 255]; the green channel is nonnegative and lies in
[0, 255] for every scheme except Matrix, whose unclamped green channel
round(255 * t * 2) only satisfies the weaker bound [0, 510]. -/
theorem claim_C2_amended (it mi : ℕ) (s : ColorScheme) (time : ℚ)
    (hle : it ≤ mi) (hmi : 1 ≤ mi) (htime : 0 ≤ time) :
    (0 ≤ (getColor it mi s time).1 ∧ (getColor it mi s time).1 ≤ 255) ∧
    (0 ≤ (getColor it mi s time).2.1 ∧ (getColor it mi s time).2.1 ≤ 510 ∧
      (s ≠ .matrix → (getColor it mi s time).2.1 ≤ 255)) ∧
    (0 ≤ (getColor it mi s time).2.2 ∧ (getColor it mi s time).2.2 ≤ 255) := by
  by_cases heq : it = mi
  · subst heq
    simp [getColor]
  · have hmi0 : (0 : ℚ) < (mi : ℚ) := by
      exact_mod_cast Nat.lt_of_lt_of_le Nat.zero_lt_one hmi
    have ht0 : 0 ≤ (it : ℚ) / (mi : ℚ) :=
      div_nonneg (Nat.cast_nonneg it) hmi0.le
    have ht1 : (it : ℚ) / (mi : ℚ) ≤ 1 :=
      (div_le_one hmi0).mpr (by exact_mod_cast hle)
    have hdef : ∀ b : ℚ, 0 ≤ b →
        (0 ≤ ((hslToRgb (jsMod (b + (it : ℚ) / (mi : ℚ) * 360) 360 / 360)
            (7/10) (2/10 + (it : ℚ) / (mi : ℚ) * (6/10))).1 : ℚ) ∧
          ((hslToRgb (jsMod (b + (it : ℚ) / (mi : ℚ) * 360) 360 / 360)
            (7/10) (2/10 + (it : ℚ) / (mi : ℚ) * (6/10))).1 : ℚ) ≤ 255) ∧
        (0 ≤ ((hslToRgb (jsMod (b + (it : ℚ) / (mi : ℚ) * 360) 360 / 360)
            (7/10) (2/10 + (it : ℚ) / (mi : ℚ) * (6/10))).2.1 : ℚ) ∧
          ((hslToRgb (jsMod (b + (it : ℚ) / (mi : ℚ) * 360) 360 / 360)
            (7/10) (2/10 + (it : ℚ) / (mi : ℚ) * (6/10))).2.1 : ℚ) ≤ 255) ∧
        (0 ≤ ((hslToRgb (jsMod (b + (it : ℚ) / (mi : ℚ) * 360) 360 / 360)
            (7/10) (2/10 + (it : ℚ) / (mi : ℚ) * (6/10))).2.2 : ℚ) ∧
          ((hslToRgb (jsMod (b + (it : ℚ) / (mi : ℚ) * 360) 360 / 360)
            (7/10) (2/10 + (it : ℚ) / (mi : ℚ) * (6/10))).2.2 : ℚ) ≤ 255) := by
      intro b hb
      have harg : 0 ≤ b + (it : ℚ) / (mi : ℚ) * 360 := by nlinarith
      have hm0 : 0 ≤ jsMod (b + (it : ℚ) / (mi : ℚ) * 360) 360 :=
        jsMod_nonneg _ _ harg (by norm_num)
      have hm1 : jsMod (b + (it : ℚ) / (mi : ℚ) * 360) 360 < 360 :=
        jsMod_lt _ _ harg (by norm_num)
      have hres := hslToRgb_mem
        (jsMod (b + (it : ℚ) / (mi : ℚ) * 360) 360 / 360) (7/10)
        (2/10 + (it : ℚ) / (mi : ℚ) * (6/10))
        (by norm_num) (by norm_num) (by linarith) (by linarith)
        (div_nonneg hm0 (by norm_num)) ((div_lt_one (by norm_num)).mpr hm1)
      obtain ⟨⟨a1, a2⟩, ⟨b1, b2⟩, c1, c2⟩ := hres
      exact ⟨⟨by exact_mod_cast a1, by exact_mod_cast a2⟩,
        ⟨by exact_mod_cast b1, by exact_mod_cast b2⟩,
        by exact_mod_cast c1, by exact_mod_cast c2⟩
    cases s with
    | matrix =>
      simp only [getColor, if_neg heq]
      have hg0 : 0 ≤ 255 * ((it : ℚ) / (mi : ℚ)) * 2 := by nlinarith
      have hg1 : 255 * ((it : ℚ) / (mi : ℚ)) * 2 ≤ ((510 : ℤ) : ℚ) := by
        push_cast; nlinarith
      refine ⟨⟨le_refl 0, by norm_num⟩,
        ⟨by exact_mod_cast jsRound_nonneg _ hg0,
         by exact_mod_cast jsRound_le _ 510 hg1,
         fun hcon => absurd rfl hcon⟩,
        le_refl 0, by norm_num⟩
    | fire =>
      simp only [getColor, if_neg heq]
      refine ⟨⟨le_min (by norm_num) (by nlinarith), min_le_left _ _⟩,
        ⟨le_min (by norm_num) (le_max_left 0 _),
          le_trans (min_le_left _ _) (by norm_num), fun _ => min_le_left _ _⟩,
        le_refl 0, by norm_num⟩
    | psychedelic =>
      simp only [getColor, if_neg heq]
      have harg : 0 ≤ (it : ℚ) / (mi : ℚ) * 5 + time / 10000 := by nlinarith
      have hm0 : 0 ≤ jsMod ((it : ℚ) / (mi : ℚ) * 5 + time / 10000) 1 :=
        jsMod_nonneg _ _ harg (by norm_num)
      have hm1 : jsMod ((it : ℚ) / (mi : ℚ) * 5 + time / 10000) 1 < 1 :=
        jsMod_lt _ _ harg (by norm_num)
      have hres := hslToRgb_mem
        (jsMod ((it : ℚ) / (mi : ℚ) * 5 + time / 10000) 1) (8/10) (1/2)
        (by norm_num) (by norm_num) (by norm_num) (by norm_num) hm0 hm1
      obtain ⟨⟨a1, a2⟩, ⟨b1, b2⟩, c1, c2⟩ := hres
      have hb2q : ((hslToRgb (jsMod ((it : ℚ) / (mi : ℚ) * 5 + time / 10000) 1)
          (8/10) (1/2)).2.1 : ℚ) ≤ 255 := by exact_mod_cast b2
      exact ⟨⟨by exact_mod_cast a1, by exact_mod_cast a2⟩,
        ⟨by exact_mod_cast b1, le_trans hb2q (by norm_num), fun _ => hb2q⟩,
        by exact_mod_cast c1, by exact_mod_cast c2⟩
    | classic =>
      simp only [getColor, if_neg heq, baseHue]
      obtain ⟨⟨a1, a2⟩, ⟨b1, b2⟩, c1, c2⟩ := hdef 200 (by norm_num)
      exact ⟨⟨a1, a2⟩, ⟨b1, le_trans b2 (by norm_num), fun _ => b2⟩, c1, c2⟩
    | ocean =>
      simp only [getColor, if_neg heq, baseHue]
      obtain ⟨⟨a1, a2⟩, ⟨b1, b2⟩, c1, c2⟩ := hdef 190 (by norm_num)
      exact ⟨⟨a1, a2⟩, ⟨b1, le_trans b2 (by norm_num), fun _ => b2⟩, c1, c2⟩
    | purple =>
      simp only [getColor, if_neg heq, baseHue]
      obtain ⟨⟨a1, a2⟩, ⟨b1, b2⟩, c1, c2⟩ := hdef 280 (by norm_num)
      exact ⟨⟨a1, a2⟩, ⟨b1, le_trans b2 (by norm_num), fun _ => b2⟩, c1, c2⟩
    | sunset =>
      simp only [getColor, if_neg heq, baseHue]
      obtain ⟨⟨a1, a2⟩, ⟨b1, b2⟩, c1, c2⟩ := hdef 330 (by norm_num)
      exact ⟨⟨a1, a2⟩, ⟨b1, le_trans b2 (by norm_num), fun _ => b2⟩, c1, c2⟩

/-- Witness for the amended claim C2 with the classic scheme. -/
theorem claim_C2_amended_witness :
    1 ≤ 2 ∧ (0 : ℚ) ≤ 0 ∧
    (0 ≤ (getColor 1 2 .classic 0).1 ∧ (getColor 1 2 .classic 0).1 ≤ 255) :=
  ⟨by norm_num, le_refl 0,
    (claim_C2_amended 1 2 .classic 0 (by norm_num) (by norm_num)
      (le_refl 0)).1⟩

end Mandel
